import Mathlib

/-!
Verification of the obric-mcp-server Neo4j query layer.

We give a shallow embedding of the query-construction and traversal logic of
`src/obric_mcp_server/neo4j/{entity,neighbourhood,path,person,relationship_details}.py`.
Strings are modelled as lists of characters; the Cypher store is modelled as a
finite property graph (`Graph`), and each Cypher query issued by the source is
translated into an executable Lean function over that graph, following the
query text clause by clause.  Cypher `toLower` is modelled on ASCII letters.
-/

/-- Strings are modelled as lists of characters. -/
abbrev Str := List Char

/-- ASCII lower-casing of one character (model of Cypher `toLower` per char). -/
def lowerChar (c : Char) : Char :=
  if 'A' ≤ c ∧ c ≤ 'Z' then Char.ofNat (c.toNat + 32) else c

/-- Lower-case a whole string. -/
def lowerStr (s : Str) : Str := s.map lowerChar

/-- Python `str.strip` whitespace set (ASCII part). -/
def isPyWS (c : Char) : Bool :=
  c = ' ' || c = '\t' || c = '\n' || c = '\r' || c = '\x0b' || c = '\x0c'

/-- Python `str.strip`: drop whitespace from both ends. -/
def stripStr (s : Str) : Str :=
  ((s.dropWhile isPyWS).reverse.dropWhile isPyWS).reverse

/-- `_norm` from the source modules: strip whitespace, treat empty as `None`. -/
def normOpt (v : Option Str) : Option Str :=
  match v with
  | none => none
  | some s => let t := stripStr s; if t.isEmpty then none else some t

/-- Substring test: does `hay` contain `needle` as a contiguous substring? -/
def containsSub (hay needle : Str) : Bool :=
  match hay with
  | [] => needle.isEmpty
  | _ :: t => needle.isPrefixOf hay || containsSub t needle

/-- Model of Cypher `toLower(field) CONTAINS toLower($p)`; a null field never
matches. -/
def cyContains (field : Option Str) (p : Str) : Bool :=
  match field with
  | none => false
  | some f => containsSub (lowerStr f) (lowerStr p)

/-- Model of Cypher `toLower(field) = toLower($p)`; a null field never
matches. -/
def cyEqLower (field : Option Str) (p : Str) : Bool :=
  match field with
  | none => false
  | some f => lowerStr f == lowerStr p

/-- Node labels appearing in the source's Cypher. -/
inductive NLabel where
  | entity
  | relationshipDetail
  | person
  | insider
deriving DecidableEq

/-- A directed store relationship; `eid` is its identity (Cypher never binds
the same relationship twice inside one pattern match). -/
structure GEdge where
  eid : Nat
  src : Nat
  dst : Nat
deriving DecidableEq

/-- The persisted property graph, read-only for this system.  Nodes are named
by `Nat` identifiers; property accessors return `none` for a null property. -/
structure Graph where
  nodes : List Nat
  edges : List GEdge
  labels : Nat → List NLabel
  idP : Nat → Option Str
  tickerP : Nat → Option Str
  shortNameP : Nat → Option Str
  legalNameP : Nat → Option Str
  entityTypeP : Nat → Option Str
  relTypeP : Nat → Option Str
  descP : Nat → Option Str
  sourceUrlP : Nat → Option Str
  createdAtP : Nat → Nat
  fullNameP : Nat → Option Str
  addressP : Nat → Option Str
  secCikP : Nat → Option Str
  hasEmbeddingP : Nat → Bool

/-- Does node `n` carry label `l`? -/
def hasLabel (g : Graph) (n : Nat) (l : NLabel) : Bool :=
  (g.labels n).contains l

/-- Bound query parameters: an ordered key/value dictionary, as Python builds
them. -/
abbrev Dict := List (Str × Str)

/-- First-match lookup in a parameter dictionary. -/
def dlookup (d : Dict) (k : Str) : Option Str :=
  match d with
  | [] => none
  | (k', v) :: rest => if k' = k then some v else dlookup rest k

/-- Python `{**a, **b}`: keys of `b` overwrite keys of `a`. -/
def mergePy (a b : Dict) : Dict :=
  (a.filter (fun kv => (dlookup b kv.1).isNone)) ++ b

/-- The match clause built by `_build_entity_match`, keeping the `$`-parameter
keys it references (the clause text mentions parameters by key; their values
live in the separate params dictionary). -/
inductive EMatch where
  | byId (key : Str)
  | byTicker (key : Str)
  | byNames (snKey lnKey : Option Str)
deriving DecidableEq

/-- `_build_entity_match` (identical in entity.py, neighbourhood.py, path.py):
normalize ticker and the two names (the id is used as supplied), then pick the
first applicable strategy: id, else ticker, else name fuzzy search, else fail. -/
def buildEntityMatch (id ticker shortName legalName : Option Str) :
    Except Str (EMatch × Dict) :=
  let ticker := normOpt ticker
  let shortName := normOpt shortName
  let legalName := normOpt legalName
  match id with
  | some v => .ok (.byId "id".toList, [("id".toList, v)])
  | none =>
    match ticker with
    | some t => .ok (.byTicker "ticker".toList, [("ticker".toList, t)])
    | none =>
      match shortName, legalName with
      | none, none => .error "At least one of short_name or legal_name must be provided when id and ticker are not given.".toList
      | sn, ln =>
        let d1 : Dict := match sn with
          | some s => [("short_name".toList, s)]
          | none => []
        let d2 : Dict := match ln with
          | some l => [("legal_name".toList, l)]
          | none => []
        .ok (.byNames (sn.map fun _ => "short_name".toList)
                      (ln.map fun _ => "legal_name".toList), d1 ++ d2)

/-- Evaluate an entity match clause against one store node, resolving each
referenced parameter key in the bound dictionary `d` (as the store would).
The id branch has no label filter, exactly as in the source. -/
def evalEMatch (g : Graph) (m : EMatch) (d : Dict) (n : Nat) : Bool :=
  match m with
  | .byId k =>
    match dlookup d k with
    | some v => g.idP n == some v
    | none => false
  | .byTicker k =>
    hasLabel g n .entity &&
      (match dlookup d k with
       | some v => cyEqLower (g.tickerP n) v
       | none => false)
  | .byNames snk lnk =>
    hasLabel g n .entity &&
      ((match snk with
        | some k =>
          match dlookup d k with
          | some v => cyContains (g.shortNameP n) v || cyContains (g.legalNameP n) v
          | none => false
        | none => false)
       ||
       (match lnk with
        | some k =>
          match dlookup d k with
          | some v => cyContains (g.shortNameP n) v || cyContains (g.legalNameP n) v
          | none => false
        | none => false))

/-- `EntityDB.find_entity`: build the match, then `RETURN n LIMIT 1` for id
lookups and `RETURN n LIMIT $limit` otherwise. -/
def findEntity (g : Graph) (id ticker shortName legalName : Option Str)
    (limit : Nat) : Except Str (List Nat) :=
  match buildEntityMatch id ticker shortName legalName with
  | .error e => .error e
  | .ok (m, params) =>
    let matched := g.nodes.filter (fun n => evalEMatch g m params n)
    match id with
    | some _ => .ok (matched.take 1)
    | none => .ok (matched.take limit)

/-- The match clause built by `PersonDB._build_person_match`, keeping the
parameter keys it references. -/
inductive PMatch where
  | byId (idKey : Str) (addrKey cikKey : Option Str)
  | byName (nameKey : Str) (addrKey cikKey : Option Str)
deriving DecidableEq

/-- `PersonDB._build_person_match`: normalize name/address/sec_cik (the id is
used as supplied); id-first priority, with the optional address / sec_cik
filters appended with `OR`; else a required name fuzzy search, also
OR-combined with the optional filters. -/
def buildPersonMatch (id name address secCik : Option Str) :
    Except Str (PMatch × Dict) :=
  let name := normOpt name
  let address := normOpt address
  let secCik := normOpt secCik
  match id with
  | some v =>
    let d1 : Dict := [("id".toList, v)]
    let d2 : Dict := match address with
      | some a => [("address".toList, a)]
      | none => []
    let d3 : Dict := match secCik with
      | some c => [("sec_cik".toList, c)]
      | none => []
    .ok (.byId "id".toList (address.map fun _ => "address".toList)
          (secCik.map fun _ => "sec_cik".toList), d1 ++ d2 ++ d3)
  | none =>
    match name with
    | none => .error "At least one of id or name must be provided when building a person match.".toList
    | some nm =>
      let d1 : Dict := [("name".toList, nm)]
      let d2 : Dict := match address with
        | some a => [("address".toList, a)]
        | none => []
      let d3 : Dict := match secCik with
        | some c => [("sec_cik".toList, c)]
        | none => []
      .ok (.byName "name".toList (address.map fun _ => "address".toList)
            (secCik.map fun _ => "sec_cik".toList), d1 ++ d2 ++ d3)

/-- Evaluate a person match clause against one store node with the bound
parameter dictionary `d`; all branches are scoped to `Person`-labelled nodes
and OR-combined, as in the generated Cypher. -/
def evalPMatch (g : Graph) (m : PMatch) (d : Dict) (n : Nat) : Bool :=
  let addrCond : Option Str → Bool := fun ak =>
    match ak with
    | some k =>
      match dlookup d k with
      | some v => cyContains (g.addressP n) v
      | none => false
    | none => false
  let cikCond : Option Str → Bool := fun ck =>
    match ck with
    | some k =>
      match dlookup d k with
      | some v => cyEqLower (g.secCikP n) v
      | none => false
    | none => false
  match m with
  | .byId k ak ck =>
    hasLabel g n .person &&
      ((match dlookup d k with
        | some v => g.idP n == some v
        | none => false) || addrCond ak || cikCond ck)
  | .byName k ak ck =>
    hasLabel g n .person &&
      ((match dlookup d k with
        | some v => cyContains (g.fullNameP n) v
        | none => false) || addrCond ak || cikCond ck)

/-- Parameter and clause assembly of
`RelationshipDetailsDB.find_person_entity_relationships`: the entity and
person matches are built independently and their parameter dictionaries are
merged with a plain `{**entity_params, **person_params}` — no key
namespacing (the source passes `address=None` implicitly: only id, name and
sec_cik hints exist for the person). -/
def personEntityRelationshipSetup
    (id ticker shortName legalName personId personName personSecCik :
      Option Str) : Except Str (EMatch × PMatch × Dict) :=
  match buildEntityMatch id ticker shortName legalName with
  | .error e => .error e
  | .ok (em, ep) =>
    match buildPersonMatch personId personName none personSecCik with
    | .error e => .error e
    | .ok (pm, pp) => .ok (em, pm, mergePy ep pp)

/-- Rename the parameter keys an entity match clause references (model of the
`e_match.replace("$key", "$1_key")` loop). -/
def renameEKeys (p : Str) : EMatch → EMatch
  | .byId k => .byId (p ++ k)
  | .byTicker k => .byTicker (p ++ k)
  | .byNames a b => .byNames (a.map (p ++ ·)) (b.map (p ++ ·))

/-- Namespace every key of a parameter dictionary (model of the
`params[f"1_{key}"] = value` loop). -/
def renameDict (p : Str) (d : Dict) : Dict :=
  d.map (fun kv => (p ++ kv.1, kv.2))

/-- Parameter and clause assembly of
`RelationshipDetailsDB.find_relationship_details`: both entity matches are
built, then each side's parameters (and the keys its clause references) are
namespaced with `1_` / `2_` before merging. -/
def relationshipDetailsSetup
    (id1 ticker1 shortName1 legalName1 id2 ticker2 shortName2 legalName2 :
      Option Str) : Except Str (EMatch × EMatch × Dict) :=
  match buildEntityMatch id1 ticker1 shortName1 legalName1 with
  | .error e => .error e
  | .ok (m1, p1) =>
    match buildEntityMatch id2 ticker2 shortName2 legalName2 with
    | .error e => .error e
    | .ok (m2, p2) =>
      .ok (renameEKeys "1_".toList m1, renameEKeys "2_".toList m2,
        renameDict "1_".toList p1 ++ renameDict "2_".toList p2)

/-- The empty store; concrete example stores override the fields they use. -/
def blankGraph : Graph where
  nodes := []
  edges := []
  labels := fun _ => []
  idP := fun _ => none
  tickerP := fun _ => none
  shortNameP := fun _ => none
  legalNameP := fun _ => none
  entityTypeP := fun _ => none
  relTypeP := fun _ => none
  descP := fun _ => none
  sourceUrlP := fun _ => none
  createdAtP := fun _ => 0
  fullNameP := fun _ => none
  addressP := fun _ => none
  secCikP := fun _ => none
  hasEmbeddingP := fun _ => false

/-- A tiny concrete store for the C5 counterexample: one Entity whose ticker
is `T` and whose internal id is `e0`; no node has a whitespace id. -/
def gC5 : Graph :=
  { blankGraph with
    nodes := [0]
    labels := fun _ => [.entity]
    idP := fun _ => some "e0".toList
    tickerP := fun _ => some "T".toList }

/-- Traversal orientation of one variable-length Cypher pattern:
`-[*..]->`, `<-[*..]-`, or the undirected `-[*..]-`. -/
inductive TravDir where
  | out
  | inb
  | und
deriving DecidableEq

/-- One traversal step from node `cur` over relationship `e`: the node reached,
or `none` when `e` is not usable from `cur` in direction `d`. -/
def eStep (d : TravDir) (cur : Nat) (e : GEdge) : Option Nat :=
  match d with
  | .out => if e.src = cur then some e.dst else none
  | .inb => if e.dst = cur then some e.src else none
  | .und => if e.src = cur then some e.dst
            else if e.dst = cur then some e.src else none

/-- Relationships usable from `cur` that are not yet used, with the node each
one reaches (Cypher never reuses a relationship within one pattern match). -/
def stepChoices (g : Graph) (d : TravDir) (cur : Nat) (used : List Nat) :
    List (GEdge × Nat) :=
  g.edges.filterMap (fun e =>
    if used.contains e.eid then none
    else
      match eStep d cur e with
      | some nxt => some (e, nxt)
      | none => none)

/-- All relationship-distinct walks of 1..fuel steps from `cur`, avoiding the
relationship ids in `used`.  This is the semantics of a Cypher variable-length
pattern `-[*1..fuel]-` anchored at `cur`: relationship-unique, but nodes may
repeat.  Each walk is the list of (relationship, node reached) steps. -/
def trailsFrom (g : Graph) (d : TravDir) :
    Nat → Nat → List Nat → List (List (GEdge × Nat))
  | 0, _, _ => []
  | fuel + 1, cur, used =>
    (stepChoices g d cur used).flatMap (fun c =>
      [c] :: (trailsFrom g d fuel c.2 (c.1.eid :: used)).map (fun cs => c :: cs))

/-- Specification-side checker for a relationship-distinct walk from `cur`. -/
def chainOkB (g : Graph) (d : TravDir) : Nat → List Nat → List (GEdge × Nat) → Bool
  | _, _, [] => true
  | cur, used, (e, nxt) :: rest =>
    g.edges.contains e && !(used.contains e.eid) && (eStep d cur e == some nxt) &&
      chainOkB g d nxt (e.eid :: used) rest

/-- The node sequence of a walk starting at `s` (Cypher `nodes(path)`, in
pattern order: the pattern's first node comes first). -/
def nodeSeq (s : Nat) (t : List (GEdge × Nat)) : List Nat :=
  s :: t.map (·.2)

/-- The Cypher alternation filter
`ALL(i ...: even index has label Entity, odd index has label RelationshipDetail)`,
written as a recursion over the node sequence (even positions when
`expectEntity` is true). -/
def alternB (g : Graph) (expectEntity : Bool) : List Nat → Bool
  | [] => true
  | n :: rest =>
    (if expectEntity then hasLabel g n .entity else hasLabel g n .relationshipDetail) &&
      alternB g (!expectEntity) rest

/-- The Cypher simple-path filter
`ALL(n IN nodes(path) WHERE SINGLE(x IN nodes(path) WHERE x = n))`. -/
def nodupB : List Nat → Bool
  | [] => true
  | n :: rest => !(rest.contains n) && nodupB rest

/-- Cypher `DISTINCT`: keep the first occurrence of each value. -/
def dedupF {α : Type} [DecidableEq α] : List α → List α
  | [] => []
  | x :: xs => x :: (dedupF xs).filter (fun y => y ≠ x)

/-- Sort ascending by a `Nat` key: the model of Cypher `ORDER BY`. -/
def sortByKey {α : Type} (key : α → Nat) (l : List α) : List α :=
  List.insertionSort (fun a b => key a ≤ key b) l

/-- Number of Entity-labelled nodes on a path, minus one: the tier computation
`size([n IN nodes(path) WHERE 'Entity' IN labels(n)]) - 1`. -/
def tierOf (g : Graph) (ns : List Nat) : Nat :=
  (ns.filter (fun n => hasLabel g n .entity)).length - 1

/-- The direction argument of `find_connected_entities`:
`None`, `"outbound"` or `"inbound"`, already token-validated. -/
def travOfOpt : Option Bool → TravDir
  | none => .und
  | some true => .out
  | some false => .inb

/-- The `(entity, tier)` rows produced by the `find_connected_entities` Cypher
for one start node: every relationship-distinct walk of 1..2·maxTier steps
that passes the simple-path and alternation filters and ends at an
Entity-labelled node yields one row, kept when its tier is in range. -/
def connectedRowsFor (g : Graph) (d : TravDir) (minTier maxTier : Nat) (s : Nat) :
    List (Nat × Nat) :=
  (trailsFrom g d (2 * maxTier) s []).filterMap (fun t =>
    let ns := nodeSeq s t
    let e := (t.map (·.2)).getLastD s
    if nodupB ns && alternB g true ns && hasLabel g e .entity then
      let tier := tierOf g ns
      if minTier ≤ tier ∧ tier ≤ maxTier then some (e, tier) else none
    else none)

/-- `NeighbourhoodDB.find_connected_entities`: validate the tier band, resolve
the start entity, enumerate rows, then `RETURN DISTINCT e, tier ORDER BY tier
LIMIT $limit`.  (`minTier`,`maxTier` are naturals, so `min_tier >= 0` holds by
type; `direction` is an already-validated token.) -/
def findConnectedEntities (g : Graph)
    (id ticker shortName legalName : Option Str)
    (minTier maxTier : Nat) (direction : Option Bool) (limit : Nat) :
    Except Str (List (Nat × Nat)) :=
  if maxTier < minTier then .error "max_tier must be >= min_tier".toList
  else
    match buildEntityMatch id ticker shortName legalName with
    | .error e => .error e
    | .ok (m, params) =>
      let starts := dedupF (g.nodes.filter (fun n => evalEMatch g m params n))
      let rows := starts.flatMap
        (connectedRowsFor g (travOfOpt direction) minTier maxTier)
      .ok ((sortByKey (fun r => r.2) (dedupF rows)).take limit)

/-- The `direction` argument of the Path Engine operations (already validated
to be one of the two tokens `"outbound"`, `"inbound"`). -/
inductive PathDir where
  | outbound
  | inbound
deriving DecidableEq

/-- The traversal orientation of the Cypher pattern a `PathDir` selects:
`-[*1..k]->` for outbound, `<-[*1..k]-` for inbound. -/
def travOfPath : PathDir → TravDir
  | .outbound => .out
  | .inbound => .inb

/-- The raw matched paths shared by `has_directed_path`, `find_directed_paths`
and `find_directed_paths_with_relationship_details`: resolve both entities
(the source renames each side's parameter keys with a `1_`/`2_` namespace, a
semantically transparent step here since each clause is evaluated with its own
parameters), then `MATCH path = (e1){rel_pattern}(e2)` filtered by the
alternation condition.  The Cypher imposes relationship-uniqueness but these
three queries have no node-uniqueness filter.  Each produced path is the start
node plus its steps. -/
def findDirectedPathsRawT (g : Graph)
    (id1 ticker1 shortName1 legalName1 : Option Str)
    (id2 ticker2 shortName2 legalName2 : Option Str)
    (direction : PathDir) (maxTier : Nat) :
    Except Str (List (Nat × List (GEdge × Nat))) :=
  if maxTier < 1 then .error "max_tier must be >= 1".toList
  else
    match buildEntityMatch id1 ticker1 shortName1 legalName1 with
    | .error e => .error e
    | .ok (m1, p1) =>
      match buildEntityMatch id2 ticker2 shortName2 legalName2 with
      | .error e => .error e
      | .ok (m2, p2) =>
        let e1s := dedupF (g.nodes.filter (fun n => evalEMatch g m1 p1 n))
        let e2s := dedupF (g.nodes.filter (fun n => evalEMatch g m2 p2 n))
        .ok (e1s.flatMap (fun a => e2s.flatMap (fun b =>
          (trailsFrom g (travOfPath direction) (2 * maxTier) a []).filterMap
            (fun t =>
              if (t.map (·.2)).getLastD a = b && alternB g true (nodeSeq a t)
              then some (a, t) else none))))

/-- `PathDB.has_directed_path`: `RETURN count(path) > 0`. -/
def hasDirectedPath (g : Graph)
    (id1 ticker1 shortName1 legalName1 id2 ticker2 shortName2 legalName2 :
      Option Str) (direction : PathDir) (maxTier : Nat) : Except Str Bool :=
  match findDirectedPathsRawT g id1 ticker1 shortName1 legalName1
      id2 ticker2 shortName2 legalName2 direction maxTier with
  | .error e => .error e
  | .ok rows => .ok (!rows.isEmpty)

/-- `PathDB.find_directed_paths`: keep only the Entity-labelled nodes of each
matched path; for `inbound` the Python reverses each sequence before
returning. -/
def findDirectedPaths (g : Graph)
    (id1 ticker1 shortName1 legalName1 id2 ticker2 shortName2 legalName2 :
      Option Str) (direction : PathDir) (maxTier : Nat) :
    Except Str (List (List Nat)) :=
  match findDirectedPathsRawT g id1 ticker1 shortName1 legalName1
      id2 ticker2 shortName2 legalName2 direction maxTier with
  | .error e => .error e
  | .ok rows => .ok (rows.map (fun r =>
      let ep := (nodeSeq r.1 r.2).filter (fun n => hasLabel g n .entity)
      match direction with
      | .outbound => ep
      | .inbound => ep.reverse))

/-- The fixed projection of a RelationshipDetail node used by the segment
output: `{id, description, relationship_type, source_url, created_at}` (the
embedding is always excluded). -/
structure RelProj where
  rid : Option Str
  rdesc : Option Str
  rrtype : Option Str
  rsrc : Option Str
  rcreated : Nat
deriving DecidableEq

/-- Project a RelationshipDetail node to its five returned fields. -/
def relProjOf (g : Graph) (n : Nat) : RelProj :=
  ⟨g.idP n, g.descP n, g.relTypeP n, g.sourceUrlP n, g.createdAtP n⟩

/-- One hop segment of the detailed path output.  `fromN`/`toN` are the two
Entity nodes bound to the `from`/`to` keys; the RelationshipDetail appears
through its fixed projection. -/
structure Segment where
  fromN : Nat
  rdProj : RelProj
  toN : Nat
deriving DecidableEq

/-- Build one segment from three consecutive path nodes `a, r, b`.  With
`swap = false` (outbound) the keys are `from: a, to: b`; with `swap = true`
(inbound) they are swapped: `to: a, from: b`. -/
def mkSeg (g : Graph) (swap : Bool) (a r b : Nat) : Segment :=
  if swap then ⟨b, relProjOf g r, a⟩ else ⟨a, relProjOf g r, b⟩

/-- The Cypher comprehension `[i IN range(0, size(ns)-3, 2) | {... ns[i],
ns[i+1], ns[i+2] ...}]`, written as a recursion over the node sequence. -/
def segsOf (g : Graph) (swap : Bool) : List Nat → List Segment
  | a :: r :: rest =>
    match rest with
    | b :: _ => mkSeg g swap a r b :: segsOf g swap rest
    | [] => []
  | _ => []

/-- `PathDB.find_directed_paths_with_relationship_details`: segments per
matched path; for `inbound` the from/to keys are swapped per segment and the
Python reverses each segment list before returning. -/
def findDirectedPathsDetails (g : Graph)
    (id1 ticker1 shortName1 legalName1 id2 ticker2 shortName2 legalName2 :
      Option Str) (direction : PathDir) (maxTier : Nat) :
    Except Str (List (List Segment)) :=
  match findDirectedPathsRawT g id1 ticker1 shortName1 legalName1
      id2 ticker2 shortName2 legalName2 direction maxTier with
  | .error e => .error e
  | .ok rows => .ok (rows.map (fun r =>
      let segs := segsOf g (direction = .inbound) (nodeSeq r.1 r.2)
      match direction with
      | .outbound => segs
      | .inbound => segs.reverse))

/-- Sort descending by a `Nat` key: the model of Cypher `ORDER BY ... DESC`. -/
def sortByKeyDown {α : Type} (key : α → Nat) (l : List α) : List α :=
  List.insertionSort (fun a b => key b ≤ key a) l

/-- The fixed allow-list of ownership/affiliation relationship types from
`find_government_awards`. -/
def affiliateRelTypes : List Str :=
  ["subsidiary".toList, "parent_company".toList, "equity_acquisition".toList,
   "ownership".toList, "division_of".toList, "asset_acquisition".toList,
   "acquisition_of_equity".toList, "asset_purchase".toList,
   "acquisition".toList, "affiliate".toList, "affiliate_of".toList,
   "owner".toList, "ownership_interest".toList, "equity_holder".toList,
   "parent".toList, "sold_assets_to".toList, "acquirer".toList]

/-- The distinct affiliates of one start node:
`OPTIONAL MATCH (start)-[]-(affiliate_rd:RelationshipDetail)-[]-(affiliate:Entity)`
(undirected hops, the two relationships distinct) restricted by the type
allow-list and `entity_type = "company"` on both sides. -/
def affiliatesOf (g : Graph) (s : Nat) : List Nat :=
  dedupF (g.edges.flatMap (fun e1 =>
    match eStep .und s e1 with
    | some rd =>
      g.edges.filterMap (fun e2 =>
        if e2.eid = e1.eid then none
        else
          match eStep .und rd e2 with
          | some aff =>
            if hasLabel g rd .relationshipDetail && hasLabel g aff .entity &&
                ((g.relTypeP rd).elim false (fun rt => affiliateRelTypes.contains rt)) &&
                g.entityTypeP aff == some "company".toList &&
                g.entityTypeP s == some "company".toList
            then some aff else none
          | none => none)
    | none => []))

/-- `[start] + [a IN affiliates WHERE a IS NOT NULL]`: the affiliate closure,
exactly one hop deep, always containing the start node. -/
def closureOf (g : Graph) (s : Nat) : List Nat :=
  s :: affiliatesOf g s

/-- Cypher `COALESCE(a, b, "")`: the first non-null value, else empty. -/
def coalesceName (a b : Option Str) : Str :=
  match a with
  | some x => x
  | none =>
    match b with
    | some y => y
    | none => []

/-- One result row of `find_government_awards` before projection: the
RelationshipDetail node plus the coalesced awarding-agency and recipient
names (the `WITH DISTINCT rd, awarded_from, affiliate` triple). -/
structure AwardRow where
  rdN : Nat
  awardedFrom : Str
  affiliateE : Str
deriving DecidableEq

/-- Award rows for one closure entity:
`MATCH (government_agency:Entity)-[]->(rd:RelationshipDetail)-[]->(entity)
WHERE rd.relationship_type = "awarded_to"`. -/
def awardRowsFor (g : Graph) (ent : Nat) : List AwardRow :=
  g.edges.flatMap (fun e2 =>
    if e2.dst = ent then
      let rd := e2.src
      if hasLabel g rd .relationshipDetail &&
          g.relTypeP rd == some "awarded_to".toList then
        g.edges.filterMap (fun e1 =>
          if e1.dst = rd && hasLabel g e1.src .entity && e1.eid ≠ e2.eid then
            some ⟨rd, coalesceName (g.legalNameP e1.src) (g.shortNameP e1.src),
              coalesceName (g.legalNameP ent) (g.shortNameP ent)⟩
          else none)
      else []
    else [])

/-- `RelationshipDetailsDB.find_government_awards`: resolve the entity, take
the affiliate closure of every matched start, collect the award rows over the
closure, then `DISTINCT`, `ORDER BY rd.created_at DESC`, `LIMIT $limit`. -/
def findGovernmentAwards (g : Graph)
    (id ticker shortName legalName : Option Str) (limit : Nat) :
    Except Str (List AwardRow) :=
  match buildEntityMatch id ticker shortName legalName with
  | .error e => .error e
  | .ok (m, params) =>
    let starts := g.nodes.filter (fun n => evalEMatch g m params n)
    let rows := starts.flatMap (fun s => (closureOf g s).flatMap (awardRowsFor g))
    .ok ((sortByKeyDown (fun r => g.createdAtP r.rdN) (dedupF rows)).take limit)

/-- The RelationshipDetail selection of
`find_entity_by_relationship_embedding`: `MATCH (rd:RelationshipDetail) WHERE
rd.embedding IS NOT NULL`, then keep `similarity >= $threshold`.  `sim rd`
models `gds.similarity.cosine(rd.embedding, $embedding)`, the store-computed
cosine similarity. -/
def embPred (g : Graph) (sim : Nat → ℚ) (threshold : ℚ) (rd : Nat) : Bool :=
  hasLabel g rd .relationshipDetail && g.hasEmbeddingP rd &&
    decide (threshold ≤ sim rd)

/-- The selected RelationshipDetail nodes of the embedding search. -/
def embeddingSelect (g : Graph) (sim : Nat → ℚ) (threshold : ℚ) : List Nat :=
  g.nodes.filter (embPred g sim threshold)

/-- The RelationshipDetail text filter of `find_entity_by_relationship_query`:
`(rd.description IS NOT NULL AND toLower(rd.description) CONTAINS ...) OR
(rd.relationship_type IS NOT NULL AND ...)`. -/
def textPred (g : Graph) (q : Str) (rd : Nat) : Bool :=
  hasLabel g rd .relationshipDetail &&
    (((g.descP rd).isSome && cyContains (g.descP rd) q) ||
     ((g.relTypeP rd).isSome && cyContains (g.relTypeP rd) q))

/-- `OPTIONAL MATCH (src1:Entity)-[]->(rd)-[]->(dst1:Entity)`: all (src, dst)
bindings, the two relationships distinct. -/
def orient1 (g : Graph) (rd : Nat) : List (Nat × Nat) :=
  (g.edges.filter (fun e => e.dst = rd && hasLabel g e.src .entity)).flatMap
    (fun e1 =>
      (g.edges.filter (fun e => e.src = rd && hasLabel g e.dst .entity &&
        e.eid ≠ e1.eid)).map (fun e2 => (e1.src, e2.dst)))

/-- `OPTIONAL MATCH (dst2:Entity)<-[]-(rd)<-[]-(src2:Entity)`: all (src, dst)
bindings in the mirrored pattern spelling. -/
def orient2 (g : Graph) (rd : Nat) : List (Nat × Nat) :=
  (g.edges.filter (fun e => e.src = rd && hasLabel g e.dst .entity)).flatMap
    (fun e2 =>
      (g.edges.filter (fun e => e.dst = rd && hasLabel g e.src .entity &&
        e.eid ≠ e2.eid)).map (fun e1 => (e1.src, e2.dst)))

/-- `OPTIONAL MATCH` semantics: all bindings when some exist, else one
all-null row. -/
def optRows (l : List (Nat × Nat)) : List (Option Nat × Option Nat) :=
  match l with
  | [] => [(none, none)]
  | _ => l.map (fun p => (some p.1, some p.2))

/-- The per-row entity list built by the `WITH [...] as entities` branch:
`[src1, dst1, src2, dst2]` for both directions, `[src1, src2]` for outbound,
`[dst1, dst2]` for inbound.  `some true` is outbound, `some false` inbound. -/
def entityListFor (d : Option Bool) (r1 r2 : Option Nat × Option Nat) :
    List (Option Nat) :=
  match d with
  | none => [r1.1, r1.2, r2.1, r2.2]
  | some true => [r1.1, r2.1]
  | some false => [r1.2, r2.2]

/-- The unwound entity rows of `find_entity_by_relationship_query` /
`find_entity_by_relationship_embedding` for an arbitrary RelationshipDetail
selection `pred`: match, both optional orientations, the direction branch and
`UNWIND entities AS entity`.  A row is `none` when the unwound value is
null. -/
def queryRows (g : Graph) (pred : Nat → Bool) (d : Option Bool) :
    List (Option Nat) :=
  (g.nodes.filter pred).flatMap (fun rd =>
    (optRows (orient1 g rd)).flatMap (fun r1 =>
      (optRows (orient2 g rd)).flatMap (fun r2 => entityListFor d r1 r2)))

/-- The Python projection `[{**record["entity"]} for record in records]`:
spreading a null record raises `TypeError`. -/
def projectEntities (rows : List (Option Nat)) : Except Str (List Nat) :=
  match rows with
  | [] => .ok []
  | none :: _ => .error "TypeError: NoneType is not a mapping".toList
  | some n :: rest =>
    match projectEntities rest with
    | .error e => .error e
    | .ok ns => .ok (n :: ns)

/-- `EntityDB.find_entity_by_relationship_query`: normalize the query text,
compute the distinct unwound rows capped at `limit`, then run the Python
projection step. -/
def findEntityByRelQuery (g : Graph) (q : Str) (d : Option Bool)
    (limit : Nat) : Except Str (List Nat) :=
  match normOpt (some q) with
  | none => .error "query must be a non-empty string".toList
  | some qs => projectEntities ((dedupF (queryRows g (textPred g qs) d)).take limit)

/-- `EntityDB.find_entity_by_relationship_embedding`: same pipeline with the
similarity selection. -/
def findEntityByRelEmbedding (g : Graph) (sim : Nat → ℚ) (threshold : ℚ)
    (d : Option Bool) (limit : Nat) : Except Str (List Nat) :=
  projectEntities ((dedupF (queryRows g (embPred g sim threshold) d)).take limit)

/-- Concrete store for C1: start `0` (id `s`), direct neighbour `2` through
RelationshipDetail `1`, and a second route `0 → 3 → 4 → 5 → 2`, so entity `2`
is reachable at tier 1 and at tier 2, and entity `4` at tier 1. -/
def gC1 : Graph :=
  { blankGraph with
    nodes := [0, 1, 2, 3, 4, 5]
    edges := [⟨0, 0, 1⟩, ⟨1, 1, 2⟩, ⟨2, 0, 3⟩, ⟨3, 3, 4⟩, ⟨4, 4, 5⟩, ⟨5, 5, 2⟩]
    labels := fun n =>
      match n with
      | 0 => [.entity]
      | 1 => [.relationshipDetail]
      | 2 => [.entity]
      | 3 => [.relationshipDetail]
      | 4 => [.entity]
      | 5 => [.relationshipDetail]
      | _ => []
    idP := fun n => if n = 0 then some "s".toList else none }

/-- Concrete store for C2: entities `0` (id `a`) and `2` (id `b`) joined by
RelationshipDetails `1` and `4` in the `0 → 2` direction and by `3` in the
`2 → 0` direction, so an alternating relationship-distinct walk can visit `0`
and `2` twice. -/
def gC2 : Graph :=
  { blankGraph with
    nodes := [0, 1, 2, 3, 4]
    edges := [⟨0, 0, 1⟩, ⟨1, 1, 2⟩, ⟨2, 2, 3⟩, ⟨3, 3, 0⟩, ⟨4, 0, 4⟩, ⟨5, 4, 2⟩]
    labels := fun n =>
      match n with
      | 0 => [.entity]
      | 2 => [.entity]
      | 1 => [.relationshipDetail]
      | 3 => [.relationshipDetail]
      | 4 => [.relationshipDetail]
      | _ => []
    idP := fun n =>
      match n with
      | 0 => some "a".toList
      | 2 => some "b".toList
      | _ => none }

/-- Concrete store for C3: the only real path runs `2 → 1 → 0`, i.e. from
entity `2` (id `b`) to entity `0` (id `a`). -/
def gC3 : Graph :=
  { blankGraph with
    nodes := [0, 1, 2]
    edges := [⟨0, 2, 1⟩, ⟨1, 1, 0⟩]
    labels := fun n =>
      match n with
      | 0 => [.entity]
      | 1 => [.relationshipDetail]
      | 2 => [.entity]
      | _ => []
    idP := fun n =>
      match n with
      | 0 => some "a".toList
      | 2 => some "b".toList
      | _ => none }

/-- Concrete store for C4: entity `0` with internal id `E1` and person `1`
with internal id `P9`. -/
def gC4 : Graph :=
  { blankGraph with
    nodes := [0, 1]
    labels := fun n => if n = 0 then [.entity] else [.person]
    idP := fun n => if n = 0 then some "E1".toList else some "P9".toList }

/-- Concrete store for the C7 witness: one Entity whose legal name is
`NVIDIA Corporation` and whose short name is null. -/
def gC7 : Graph :=
  { blankGraph with
    nodes := [0]
    labels := fun _ => [.entity]
    legalNameP := fun _ => some "NVIDIA Corporation".toList }

/-- Concrete store for C8: company `0` (id `oklo`) owns company `2` through
RelationshipDetail `1` (type `ownership`); company `2` owns company `4`
through `3` (type `subsidiary`); agency `5` awarded `6` (type `awarded_to`)
to `2` and `7` (type `awarded_to`) to the second-degree affiliate `4`. -/
def gC8 : Graph :=
  { blankGraph with
    nodes := [0, 1, 2, 3, 4, 5, 6, 7]
    edges := [⟨0, 0, 1⟩, ⟨1, 1, 2⟩, ⟨2, 2, 3⟩, ⟨3, 3, 4⟩,
              ⟨4, 5, 6⟩, ⟨5, 6, 2⟩, ⟨6, 5, 7⟩, ⟨7, 7, 4⟩]
    labels := fun n =>
      match n with
      | 0 => [.entity]
      | 2 => [.entity]
      | 4 => [.entity]
      | 5 => [.entity]
      | 1 => [.relationshipDetail]
      | 3 => [.relationshipDetail]
      | 6 => [.relationshipDetail]
      | 7 => [.relationshipDetail]
      | _ => []
    idP := fun n => if n = 0 then some "oklo".toList else none
    legalNameP := fun n =>
      match n with
      | 2 => some "NNE Corp".toList
      | 4 => some "SMR Corp".toList
      | 5 => some "DOE".toList
      | _ => none
    entityTypeP := fun n =>
      match n with
      | 0 => some "company".toList
      | 2 => some "company".toList
      | 4 => some "company".toList
      | _ => none
    relTypeP := fun n =>
      match n with
      | 1 => some "ownership".toList
      | 3 => some "subsidiary".toList
      | 6 => some "awarded_to".toList
      | 7 => some "awarded_to".toList
      | _ => none }

/-- Concrete store for the C9 witness: one RelationshipDetail with a stored
embedding. -/
def gC9 : Graph :=
  { blankGraph with
    nodes := [0]
    labels := fun _ => [.relationshipDetail]
    hasEmbeddingP := fun _ => true }

/-- Concrete store for C10: RelationshipDetail `0` (description `supplies`)
is connected to person `1` only, so both optional orientations are empty and
the unwound entity value is null. -/
def gC10 : Graph :=
  { blankGraph with
    nodes := [0, 1]
    edges := [⟨0, 0, 1⟩]
    labels := fun n => if n = 0 then [.relationshipDetail] else [.person]
    descP := fun n => if n = 0 then some "supplies".toList else none }

/-- Second concrete store for C4: two entities with internal ids `E1` and
`E2`, for the properly namespaced two-entity merge of
`find_relationship_details`. -/
def gC4b : Graph :=
  { blankGraph with
    nodes := [0, 1]
    labels := fun _ => [.entity]
    idP := fun n => if n = 0 then some "E1".toList else some "E2".toList }

/-- The name-tier match semantics stated by the specification: an
Entity-labelled node matches when some supplied (normalized) name hint occurs
case-insensitively as a substring of its short name or of its legal name,
hints OR-combined. -/
def nameMatchB (g : Graph) (s l : Option Str) (n : Nat) : Bool :=
  hasLabel g n .entity &&
    ((match normOpt s with
      | some sv => cyContains (g.shortNameP n) sv || cyContains (g.legalNameP n) sv
      | none => false) ||
     (match normOpt l with
      | some lv => cyContains (g.shortNameP n) lv || cyContains (g.legalNameP n) lv
      | none => false))

/-- The error raised when no identifying entity hint survives
normalization. -/
def errNoName : Str :=
  "At least one of short_name or legal_name must be provided when id and ticker are not given.".toList

/-- Node `n` is one of the start nodes the entity hints resolve to. -/
def startMatched (g : Graph) (id ticker shortName legalName : Option Str)
    (n : Nat) : Prop :=
  ∃ m p, buildEntityMatch id ticker shortName legalName = .ok (m, p) ∧
    n ∈ g.nodes ∧ evalEMatch g m p n = true

/-- The one-hop affiliate relation stated by the specification: `a` is
connected to `s` through exactly one RelationshipDetail whose type is in the
allow-list, with `entity_type = "company"` on both sides (the two
relationships of the hop being distinct). -/
def AffiliateSpec (g : Graph) (s a : Nat) : Prop :=
  ∃ e1 e2 rd, e1 ∈ g.edges ∧ e2 ∈ g.edges ∧ e1.eid ≠ e2.eid ∧
    eStep .und s e1 = some rd ∧ eStep .und rd e2 = some a ∧
    hasLabel g rd .relationshipDetail = true ∧ hasLabel g a .entity = true ∧
    (∃ rt, g.relTypeP rd = some rt ∧ rt ∈ affiliateRelTypes) ∧
    g.entityTypeP a = some "company".toList ∧
    g.entityTypeP s = some "company".toList

/-- One government-award row for recipient `ent`, as the specification states
it: an Entity-labelled agency node with an `awarded_to` RelationshipDetail
into `ent`, with the two coalesced display names. -/
def AwardSpec (g : Graph) (ent : Nat) (row : AwardRow) : Prop :=
  ∃ e1 e2, e1 ∈ g.edges ∧ e2 ∈ g.edges ∧ e1.eid ≠ e2.eid ∧
    e2.dst = ent ∧ e2.src = row.rdN ∧ e1.dst = row.rdN ∧
    hasLabel g e1.src .entity = true ∧
    hasLabel g row.rdN .relationshipDetail = true ∧
    g.relTypeP row.rdN = some "awarded_to".toList ∧
    row.awardedFrom = coalesceName (g.legalNameP e1.src) (g.shortNameP e1.src) ∧
    row.affiliateE = coalesceName (g.legalNameP ent) (g.shortNameP ent)

/-- Does some raw matched path of a Path Engine call visit a node twice? -/
def rawAnyDup (x : Except Str (List (Nat × List (GEdge × Nat)))) : Bool :=
  match x with
  | .ok rows => rows.any (fun r => !(nodupB (nodeSeq r.1 r.2)))
  | .error _ => false

/-- Every adjacent node pair `x, y` of the sequence is joined by a store
relationship pointing `y → x` (the shape of an inbound raw path). -/
def ConsecRevEdges (g : Graph) : List Nat → Prop
  | x :: y :: rest =>
    (∃ e, e ∈ g.edges ∧ e.src = y ∧ e.dst = x) ∧ ConsecRevEdges g (y :: rest)
  | _ => True


/-! Theorems. -/

theorem dropWhile_idem {α : Type} (p : α → Bool) (l : List α) :
    (l.dropWhile p).dropWhile p = l.dropWhile p := by
  induction l with
  | nil => simp
  | cons a t ih =>
    by_cases h : p a <;> simp [List.dropWhile_cons, h, ih]

theorem dropWhile_eq_self_of_isPrefix {α : Type} (p : α → Bool) {v w : List α}
    (hpre : v <+: w) (hw : w.dropWhile p = w) : v.dropWhile p = v := by
  cases v with
  | nil => simp
  | cons a v' =>
    obtain ⟨t, rfl⟩ := hpre
    by_cases h : p a
    · rw [List.cons_append, List.dropWhile_cons] at hw
      simp only [h, if_true] at hw
      have hlen : ((v' ++ t).dropWhile p).length = (v' ++ t).length + 1 := by
        rw [hw]; simp
      have hle : ((v' ++ t).dropWhile p).length ≤ (v' ++ t).length :=
        (List.dropWhile_suffix p).sublist.length_le
      omega
    · simp [List.dropWhile_cons, h]

theorem stripStr_idem (s : Str) : stripStr (stripStr s) = stripStr s := by
  unfold stripStr
  set w := s.dropWhile isPyWS with hw
  have h1 : w.dropWhile isPyWS = w := by
    rw [hw]; exact dropWhile_idem _ _
  have hpre : (w.reverse.dropWhile isPyWS).reverse <+: w := by
    obtain ⟨t, ht⟩ := List.dropWhile_suffix (l := w.reverse) (p := isPyWS)
    refine ⟨t.reverse, ?_⟩
    have := congrArg List.reverse ht
    simpa using this
  have h2 : ((w.reverse.dropWhile isPyWS).reverse).dropWhile isPyWS =
      (w.reverse.dropWhile isPyWS).reverse :=
    dropWhile_eq_self_of_isPrefix _ hpre h1
  rw [h2, List.reverse_reverse, dropWhile_idem]

theorem normOpt_idem (v : Option Str) : normOpt (normOpt v) = normOpt v := by
  cases v with
  | none => rfl
  | some s =>
    simp only [normOpt]
    by_cases h : (stripStr s).isEmpty <;> simp [h, stripStr_idem]

/-- C5 counterexample.  The claim says a whitespace-only `id` behaves exactly
as an absent `id` (falling through to the ticker tier); on the concrete store
`gC5` the call with `id = " "` matches nothing while the call without `id`
resolves the ticker, so the two differ. -/
theorem claim_C5_counterexample :
    findEntity gC5 (some " ".toList) (some "T".toList) none none 5 = .ok [] ∧
    findEntity gC5 none (some "T".toList) none none 5 = .ok [0] := by
  constructor <;> rfl

/-- C5 amended: ticker, short_name and legal_name are trimmed, with an empty
or all-whitespace value treated as absent; the id hint alone is *not*
normalized — any non-`None` id, including a whitespace-only string, is
matched verbatim at top priority. -/
theorem claim_C5_amended :
    (∀ id t s l, buildEntityMatch id t s l =
      buildEntityMatch id (normOpt t) (normOpt s) (normOpt l)) ∧
    (∀ v t s l, buildEntityMatch (some v) t s l =
      .ok (.byId "id".toList, [("id".toList, v)])) := by
  constructor
  · intro id t s l
    simp only [buildEntityMatch, normOpt_idem]
  · intro v t s l
    rfl

/-- C6: with a non-absent id hint, the generated match condition and the
whole result of `find_entity` are independent of the ticker and name hints,
and the result holds at most one record regardless of `limit`. -/
theorem claim_C6 (g : Graph) (v : Str) (t1 s1 l1 t2 s2 l2 : Option Str)
    (limit : Nat) :
    findEntity g (some v) t1 s1 l1 limit = findEntity g (some v) t2 s2 l2 limit ∧
    buildEntityMatch (some v) t1 s1 l1 = buildEntityMatch (some v) t2 s2 l2 ∧
    (∀ out, findEntity g (some v) t1 s1 l1 limit = .ok out → out.length ≤ 1) := by
  refine ⟨rfl, rfl, ?_⟩
  intro out h
  simp only [findEntity, buildEntityMatch] at h
  cases h
  exact List.length_take_le 1 _

/-- C6 witness at a concrete store: the id `e0` resolves node 0 whatever the
garbage in the other hints, and the output has at most one record though the
limit is 99. -/
theorem claim_C6_witness :
    (findEntity gC5 (some "e0".toList) (some "zz".toList) none none 99 =
      findEntity gC5 (some "e0".toList) none (some "garbage".toList) none 99) ∧
    [0].length ≤ 1 := by
  exact ⟨(claim_C6 gC5 "e0".toList (some "zz".toList) none none none
      (some "garbage".toList) none 99).1,
    (claim_C6 gC5 "e0".toList (some "zz".toList) none none none
      (some "garbage".toList) none 99).2.2 [0] (by rfl)⟩

/-- C4, evaluated at the failing input.  `find_person_entity_relationships`
merges the two resolutions' parameters with a plain dict union, so both
clauses reference the key `id` and the person's value `P9` wins: the entity
clause then matches the person node and rejects the entity whose id `E1` was
supplied.  By contrast `find_relationship_details` namespaces both sides
(`1_id` / `2_id`) and each clause matches its own node. -/
theorem claim_C4_code_eval :
    personEntityRelationshipSetup (some "E1".toList) none none none
      (some "P9".toList) none none =
      .ok (.byId "id".toList, .byId "id".toList none none,
        [("id".toList, "P9".toList)]) ∧
    evalEMatch gC4 (.byId "id".toList) [("id".toList, "P9".toList)] 0 = false ∧
    evalEMatch gC4 (.byId "id".toList) [("id".toList, "P9".toList)] 1 = true ∧
    evalPMatch gC4 (.byId "id".toList none none)
      [("id".toList, "P9".toList)] 1 = true ∧
    relationshipDetailsSetup (some "E1".toList) none none none
      (some "E2".toList) none none none =
      .ok (.byId "1_id".toList, .byId "2_id".toList,
        [("1_id".toList, "E1".toList), ("2_id".toList, "E2".toList)]) ∧
    evalEMatch gC4b (.byId "1_id".toList)
      [("1_id".toList, "E1".toList), ("2_id".toList, "E2".toList)] 0 = true ∧
    evalEMatch gC4b (.byId "2_id".toList)
      [("1_id".toList, "E1".toList), ("2_id".toList, "E2".toList)] 1 = true := by
  refine ⟨rfl, rfl, rfl, rfl, rfl, rfl, rfl⟩

/-- C9: a RelationshipDetail with a stored embedding whose similarity equals
the threshold exactly is included in the selection — the comparison is an
inclusive `>=`. -/
theorem claim_C9 (g : Graph) (sim : Nat → ℚ) (th : ℚ) (rd : Nat)
    (h1 : rd ∈ g.nodes) (h2 : hasLabel g rd .relationshipDetail = true)
    (h3 : g.hasEmbeddingP rd = true) (h4 : sim rd = th) :
    rd ∈ embeddingSelect g sim th ∧ embPred g sim th rd = true := by
  have hp : embPred g sim th rd = true := by
    simp [embPred, h2, h3, h4]
  exact ⟨List.mem_filter.mpr ⟨h1, hp⟩, hp⟩

/-- C9 witness: on `gC9` with constant similarity 1 and threshold 1, the
boundary RelationshipDetail is selected. -/
theorem claim_C9_witness : 0 ∈ embeddingSelect gC9 (fun _ => 1) 1 :=
  (claim_C9 gC9 (fun _ => 1) 1 0 (by decide) (by decide) (by decide) rfl).1

/-- C10 counterexample: on `gC10` the only selected RelationshipDetail has no
adjacent Entity in either orientation, the unwound entity row is null, and
the operation raises `TypeError` instead of returning normally. -/
theorem claim_C10_counterexample :
    findEntityByRelQuery gC10 "sup".toList none 250 =
      .error "TypeError: NoneType is not a mapping".toList := by
  rfl

/-- C10 amended: the spreading projection is total exactly on row lists with
no null entity; either operation returns normally iff none of its (distinct,
capped) unwound rows is null — a RelationshipDetail with no adjacent Entity
in the selected orientation produces a null row and makes the call fail. -/
theorem claim_C10_amended :
    (∀ rows : List (Option Nat),
      (∃ out, projectEntities rows = .ok out) ↔ ¬ (none ∈ rows)) ∧
    (∀ g q d limit qs, normOpt (some q) = some qs →
      ((∃ out, findEntityByRelQuery g q d limit = .ok out) ↔
        ¬ (none ∈ (dedupF (queryRows g (textPred g qs) d)).take limit))) ∧
    (∀ g sim th d limit,
      (∃ out, findEntityByRelEmbedding g sim th d limit = .ok out) ↔
        ¬ (none ∈ (dedupF (queryRows g (embPred g sim th) d)).take limit)) := by
  have base : ∀ rows : List (Option Nat),
      (∃ out, projectEntities rows = .ok out) ↔ ¬ (none ∈ rows) := by
    intro rows
    induction rows with
    | nil => simp [projectEntities]
    | cons r rest ih =>
      cases r with
      | none => simp [projectEntities]
      | some n =>
        cases h : projectEntities rest with
        | error e =>
          have : ¬ ∃ out, projectEntities rest = .ok out := by simp [h]
          have hmem : none ∈ rest := by
            by_contra hc
            exact this (ih.mpr hc)
          simp [projectEntities, h, hmem]
        | ok ns =>
          have hmem : ¬ (none ∈ rest) := ih.mp ⟨ns, h⟩
          simp [projectEntities, h, hmem]
  refine ⟨base, ?_, ?_⟩
  · intro g q d limit qs hq
    simp only [findEntityByRelQuery, hq]
    exact base _
  · intro g sim th d limit
    simp only [findEntityByRelEmbedding]
    exact base _

/-- C10 witness: a concrete call whose rows are all non-null returns
normally. -/
theorem claim_C10_witness :
    (∃ out, findEntityByRelQuery gC9 "z".toList none 4 = .ok out) ↔
      ¬ (none ∈ (dedupF (queryRows gC9 (textPred gC9 "z".toList) none)).take 4) :=
  claim_C10_amended.2.1 gC9 "z".toList none 4 "z".toList rfl

/-- C7: when id is absent and the ticker is absent after normalization,
`find_entity` returns exactly the Entity nodes matched by the cross-field,
case-insensitive, OR-combined name semantics (capped at `limit`); and when no
name hint survives normalization either, it fails with the invalid-argument
error for every store, i.e. before any store round-trip. -/
theorem claim_C7 (g : Graph) (t s l : Option Str) (limit : Nat)
    (ht : normOpt t = none) :
    (normOpt s = none → normOpt l = none →
      findEntity g none t s l limit = .error errNoName) ∧
    (¬(normOpt s = none ∧ normOpt l = none) →
      findEntity g none t s l limit =
        .ok ((g.nodes.filter (fun n => nameMatchB g s l n)).take limit)) := by
  constructor
  · intro hs hl
    simp [findEntity, buildEntityMatch, ht, hs, hl, errNoName]
  · intro hne
    cases hsv : normOpt s with
    | none =>
      cases hlv : normOpt l with
      | none => exact absurd ⟨hsv, hlv⟩ hne
      | some lv =>
        simp only [findEntity, buildEntityMatch, ht, hsv, hlv]
        rw [List.filter_congr]
        intro n _
        change (hasLabel g n .entity &&
          (false || (cyContains (g.shortNameP n) lv ||
            cyContains (g.legalNameP n) lv))) = _
        simp [nameMatchB, hsv, hlv]
    | some sv =>
      cases hlv : normOpt l with
      | none =>
        simp only [findEntity, buildEntityMatch, ht, hsv, hlv]
        rw [List.filter_congr]
        intro n _
        change (hasLabel g n .entity &&
          ((cyContains (g.shortNameP n) sv || cyContains (g.legalNameP n) sv) ||
            false)) = _
        simp [nameMatchB, hsv, hlv]
      | some lv =>
        simp only [findEntity, buildEntityMatch, ht, hsv, hlv]
        rw [List.filter_congr]
        intro n _
        change (hasLabel g n .entity &&
          ((cyContains (g.shortNameP n) sv || cyContains (g.legalNameP n) sv) ||
            (cyContains (g.shortNameP n) lv || cyContains (g.legalNameP n) lv))) = _
        simp [nameMatchB, hsv, hlv]

/-- C7 witness: `find_entity(short_name="nvidia")` matches the entity whose
legal name is `NVIDIA Corporation`, and a call whose only hint is a
whitespace ticker fails with the invalid-argument error. -/
theorem claim_C7_witness :
    findEntity gC7 none none (some "nvidia".toList) none 5 = .ok [0] ∧
    findEntity gC7 none (some "  ".toList) none none 7 = .error errNoName := by
  constructor
  · have h := (claim_C7 gC7 none (some "nvidia".toList) none 5 rfl).2
      (by intro hc; exact absurd hc.1 (by decide))
    rw [h]
    rfl
  · exact (claim_C7 gC7 (some "  ".toList) none none 7 rfl).1 rfl rfl

theorem mem_dedupF {α : Type} [DecidableEq α] {a : α} :
    ∀ {l : List α}, a ∈ dedupF l ↔ a ∈ l := by
  intro l
  induction l with
  | nil => simp [dedupF]
  | cons x xs ih =>
    by_cases h : a = x <;> simp [dedupF, List.mem_filter, ih, h]

theorem nodup_dedupF {α : Type} [DecidableEq α] :
    ∀ (l : List α), (dedupF l).Nodup := by
  intro l
  induction l with
  | nil => simp [dedupF]
  | cons x xs ih =>
    refine List.nodup_cons.mpr ⟨?_, ih.filter _⟩
    intro hx
    have := (List.mem_filter.mp hx).2
    simp at this

theorem sortByKey_sorted {α : Type} (key : α → Nat) (l : List α) :
    List.Sorted (fun a b => key a ≤ key b) (sortByKey key l) := by
  haveI : IsTotal α (fun a b => key a ≤ key b) := ⟨fun a b => Nat.le_total _ _⟩
  haveI : IsTrans α (fun a b => key a ≤ key b) :=
    ⟨fun a b c hab hbc => Nat.le_trans hab hbc⟩
  exact List.sorted_insertionSort _ l

theorem sortByKey_perm {α : Type} (key : α → Nat) (l : List α) :
    List.Perm (sortByKey key l) l :=
  List.perm_insertionSort _ l

theorem sortByKeyDown_sorted {α : Type} (key : α → Nat) (l : List α) :
    List.Sorted (fun a b => key b ≤ key a) (sortByKeyDown key l) := by
  haveI : IsTotal α (fun a b => key b ≤ key a) := ⟨fun a b => Nat.le_total _ _⟩
  haveI : IsTrans α (fun a b => key b ≤ key a) :=
    ⟨fun a b c hab hbc => Nat.le_trans hbc hab⟩
  exact List.sorted_insertionSort _ l

theorem sortByKeyDown_perm {α : Type} (key : α → Nat) (l : List α) :
    List.Perm (sortByKeyDown key l) l :=
  List.perm_insertionSort _ l

theorem mem_stepChoices {g : Graph} {d : TravDir} {cur : Nat} {used : List Nat}
    {c : GEdge × Nat} :
    c ∈ stepChoices g d cur used ↔
      c.1 ∈ g.edges ∧ used.contains c.1.eid = false ∧ eStep d cur c.1 = some c.2 := by
  cases c with
  | mk e nxt =>
    simp only [stepChoices, List.mem_filterMap]
    constructor
    · rintro ⟨e', he', hf⟩
      split at hf
      · cases hf
      next hq =>
        split at hf
        next m hs =>
          cases hf
          exact ⟨he', by simpa using hq, hs⟩
        next hs => cases hf
    · rintro ⟨he, hu, hs⟩
      have hu' : e.eid ∉ used := by simpa using hu
      exact ⟨e, he, by simp [hs, hu']⟩

theorem trailsFrom_sound {g : Graph} {d : TravDir} :
    ∀ (fuel cur : Nat) (used : List Nat) (t : List (GEdge × Nat)),
    t ∈ trailsFrom g d fuel cur used →
    chainOkB g d cur used t = true ∧ 1 ≤ t.length ∧ t.length ≤ fuel := by
  intro fuel
  induction fuel with
  | zero =>
    intro cur used t h
    simp [trailsFrom] at h
  | succ f ih =>
    intro cur used t h
    simp only [trailsFrom, List.mem_flatMap] at h
    obtain ⟨c, hc, ht⟩ := h
    obtain ⟨he, hu, hs⟩ := mem_stepChoices.mp hc
    cases c with
    | mk e nxt =>
      have hu' : e.eid ∉ used := by simpa using hu
      rcases List.mem_cons.mp ht with h1 | h2
      · subst h1
        refine ⟨?_, by simp, by simp⟩
        simp [chainOkB, he, hu', hs]
      · obtain ⟨cs, hcs, rfl⟩ := List.mem_map.mp h2
        obtain ⟨hch, hl1, hl2⟩ := ih nxt (e.eid :: used) cs hcs
        refine ⟨?_, by simp, by simp; omega⟩
        simp [chainOkB, he, hu', hs, hch]

theorem trailsFrom_complete {g : Graph} {d : TravDir} :
    ∀ (t : List (GEdge × Nat)) (fuel cur : Nat) (used : List Nat),
    chainOkB g d cur used t = true → 1 ≤ t.length → t.length ≤ fuel →
    t ∈ trailsFrom g d fuel cur used := by
  intro t
  induction t with
  | nil =>
    intro fuel cur used _ h1 _
    simp at h1
  | cons c cs ih =>
    intro fuel cur used h h1 h2
    cases fuel with
    | zero => simp at h2
    | succ f =>
      cases c with
      | mk e nxt =>
        simp only [chainOkB, Bool.and_eq_true, Bool.not_eq_true'] at h
        obtain ⟨⟨⟨hcont, hu⟩, hstep⟩, hch⟩ := h
        have he : e ∈ g.edges := List.elem_iff.mp hcont
        have hs : eStep d cur e = some nxt := by
          simpa using hstep
        simp only [trailsFrom, List.mem_flatMap]
        refine ⟨(e, nxt), mem_stepChoices.mpr ⟨he, hu, hs⟩, ?_⟩
        cases cs with
        | nil => exact List.mem_cons_self _ _
        | cons c' cs' =>
          refine List.mem_cons_of_mem _ (List.mem_map.mpr ⟨c' :: cs', ?_, rfl⟩)
          refine ih f nxt (e.eid :: used) hch (by simp) ?_
          simp at h2 ⊢
          omega

theorem chainOk_facts {g : Graph} {d : TravDir} :
    ∀ (t : List (GEdge × Nat)) (cur : Nat) (used : List Nat),
    chainOkB g d cur used t = true →
    (t.map (fun c => c.1.eid)).Nodup ∧
      ∀ c ∈ t, used.contains c.1.eid = false := by
  intro t
  induction t with
  | nil =>
    intro cur used _
    simp
  | cons c cs ih =>
    intro cur used h
    cases c with
    | mk e nxt =>
      simp only [chainOkB, Bool.and_eq_true, Bool.not_eq_true'] at h
      obtain ⟨⟨⟨_, hu⟩, _⟩, hch⟩ := h
      obtain ⟨nd, hall⟩ := ih nxt (e.eid :: used) hch
      constructor
      · refine List.nodup_cons.mpr ⟨?_, nd⟩
        intro hmem
        obtain ⟨c', hc', heq⟩ := List.mem_map.mp hmem
        have := hall c' hc'
        rw [heq] at this
        simp [List.contains_cons] at this
      · intro c' hc'
        rcases List.mem_cons.mp hc' with h1 | h1
        · subst h1; exact hu
        · have := hall c' h1
          simp only [List.contains_cons, Bool.or_eq_false_iff] at this
          exact this.2

theorem rawT_spec {g : Graph} {i1 t1 s1 l1 i2 t2 s2 l2 : Option Str}
    {dir : PathDir} {maxT : Nat} {rows : List (Nat × List (GEdge × Nat))}
    (h : findDirectedPathsRawT g i1 t1 s1 l1 i2 t2 s2 l2 dir maxT = .ok rows) :
    ∀ r ∈ rows,
      chainOkB g (travOfPath dir) r.1 [] r.2 = true ∧
      1 ≤ r.2.length ∧ r.2.length ≤ 2 * maxT ∧
      alternB g true (nodeSeq r.1 r.2) = true ∧
      (∃ m1 p1, buildEntityMatch i1 t1 s1 l1 = .ok (m1, p1) ∧
        r.1 ∈ g.nodes ∧ evalEMatch g m1 p1 r.1 = true) ∧
      (∃ m2 p2, buildEntityMatch i2 t2 s2 l2 = .ok (m2, p2) ∧
        (r.2.map (·.2)).getLastD r.1 ∈ g.nodes ∧
        evalEMatch g m2 p2 ((r.2.map (·.2)).getLastD r.1) = true) := by
  intro r hr
  unfold findDirectedPathsRawT at h
  split at h
  · cases h
  split at h
  next herr => cases h
  next m1 p1 hb1 =>
    split at h
    next herr => cases h
    next m2 p2 hb2 =>
      simp only [Except.ok.injEq] at h
      subst h
      simp only [List.mem_flatMap] at hr
      obtain ⟨a, ha, hr2⟩ := hr
      obtain ⟨b, hb, hr3⟩ := hr2
      simp only [List.mem_filterMap] at hr3
      obtain ⟨t, htr, hsome⟩ := hr3
      split at hsome
      next hcond =>
        cases hsome
        obtain ⟨hlast, halt⟩ := Bool.and_eq_true_iff.mp hcond
        have hlast' : (t.map (·.2)).getLastD a = b := of_decide_eq_true hlast
        obtain ⟨hch, h1, h2⟩ := trailsFrom_sound _ _ _ _ htr
        have ha' := List.mem_filter.mp (mem_dedupF.mp ha)
        have hb' := List.mem_filter.mp (mem_dedupF.mp hb)
        exact ⟨hch, h1, h2, halt,
          ⟨m1, p1, hb1, ha'.1, ha'.2⟩,
          ⟨m2, p2, hb2, by rw [hlast']; exact hb'.1, by rw [hlast']; exact hb'.2⟩⟩
      next => cases hsome

/-- C2 amended: every raw path matched by the Path Engine queries satisfies
the alternation invariant (Entity at even positions, RelationshipDetail at
odd positions) and the `2 × max_tier` raw-hop bound, and never uses the same
relationship twice — but nodes may repeat: these three queries carry no
simple-path filter, so the node sequence need not be duplicate-free. -/
theorem claim_C2_amended (g : Graph) (i1 t1 s1 l1 i2 t2 s2 l2 : Option Str)
    (dir : PathDir) (maxT : Nat) (rows : List (Nat × List (GEdge × Nat)))
    (h : findDirectedPathsRawT g i1 t1 s1 l1 i2 t2 s2 l2 dir maxT = .ok rows) :
    ∀ r ∈ rows,
      alternB g true (nodeSeq r.1 r.2) = true ∧
      r.2.length ≤ 2 * maxT ∧
      (r.2.map (fun c => c.1.eid)).Nodup := by
  intro r hr
  obtain ⟨hch, _, h2, halt, _, _⟩ := rawT_spec h r hr
  exact ⟨halt, h2, (chainOk_facts _ _ _ hch).1⟩

/-- C2 witness: the single inbound path of `gC3` at `max_tier = 1` satisfies
the amended invariant. -/
theorem claim_C2_witness :
    alternB gC3 true (nodeSeq 0 [(⟨1, 1, 0⟩, 1), (⟨0, 2, 1⟩, 2)]) = true ∧
    ([(⟨1, 1, 0⟩, 1), (⟨0, 2, 1⟩, 2)] : List (GEdge × Nat)).length ≤ 2 * 1 ∧
    (([(⟨1, 1, 0⟩, 1), (⟨0, 2, 1⟩, 2)] : List (GEdge × Nat)).map
      (fun c => c.1.eid)).Nodup :=
  claim_C2_amended gC3 (some "a".toList) none none none
    (some "b".toList) none none none .inbound 1
    [(0, [(⟨1, 1, 0⟩, 1), (⟨0, 2, 1⟩, 2)])] rfl
    (0, [(⟨1, 1, 0⟩, 1), (⟨0, 2, 1⟩, 2)]) (List.mem_singleton.mpr rfl)

/-- C2 counterexample: on `gC2`, `find_directed_paths(id1="a", id2="b",
direction="outbound", max_tier=3)` matches a path whose node sequence visits
entities `0` and `2` twice — the produced paths are not simple, refuting the
no-node-repeated conjunct of the claim. -/
theorem claim_C2_counterexample :
    rawAnyDup (findDirectedPathsRawT gC2 (some "a".toList) none none none
      (some "b".toList) none none none .outbound 3) = true := by
  rfl

theorem chain_inb_consec {g : Graph} :
    ∀ (t : List (GEdge × Nat)) (cur : Nat) (used : List Nat),
    chainOkB g .inb cur used t = true → ConsecRevEdges g (nodeSeq cur t) := by
  intro t
  induction t with
  | nil =>
    intro cur used _
    trivial
  | cons c cs ih =>
    intro cur used h
    cases c with
    | mk e nxt =>
      simp only [chainOkB, Bool.and_eq_true, Bool.not_eq_true'] at h
      obtain ⟨⟨⟨hcont, _⟩, hstep⟩, hch⟩ := h
      have he : e ∈ g.edges := List.elem_iff.mp hcont
      have hs : eStep TravDir.inb cur e = some nxt := by simpa using hstep
      simp only [eStep] at hs
      by_cases hd : e.dst = cur
      · rw [if_pos hd] at hs
        injection hs with hinj
        subst hinj
        exact ⟨⟨e, he, rfl, hd⟩, ih e.src (e.eid :: used) hch⟩
      · rw [if_neg hd] at hs
        cases hs

theorem segsOf_spec (g : Graph) :
    ∀ (n : Nat) (ns : List Nat), ns.length ≤ n → ConsecRevEdges g ns →
    ∀ s ∈ segsOf g true ns, ∃ rdn ea eb,
      ea ∈ g.edges ∧ ea.src = s.fromN ∧ ea.dst = rdn ∧
      eb ∈ g.edges ∧ eb.src = rdn ∧ eb.dst = s.toN ∧
      relProjOf g rdn = s.rdProj := by
  intro n
  induction n with
  | zero =>
    intro ns hlen _ s hs
    cases ns with
    | nil => simp [segsOf] at hs
    | cons a rest => simp at hlen
  | succ k ih =>
    intro ns hlen hcon s hs
    cases ns with
    | nil => simp [segsOf] at hs
    | cons a rest1 =>
      cases rest1 with
      | nil => simp [segsOf] at hs
      | cons r rest2 =>
        cases rest2 with
        | nil => simp [segsOf] at hs
        | cons b rest3 =>
          have hcon1 : (∃ e, e ∈ g.edges ∧ e.src = r ∧ e.dst = a) ∧
              ConsecRevEdges g (r :: b :: rest3) := hcon
          obtain ⟨⟨e1, he1, hsrc1, hdst1⟩, hcon2⟩ := hcon1
          have hcon2' : (∃ e, e ∈ g.edges ∧ e.src = b ∧ e.dst = r) ∧
              ConsecRevEdges g (b :: rest3) := hcon2
          obtain ⟨⟨e2, he2, hsrc2, hdst2⟩, hcon3⟩ := hcon2'
          have hs' : s = mkSeg g true a r b ∨ s ∈ segsOf g true (b :: rest3) := by
            simpa [segsOf] using hs
          rcases hs' with rfl | htail
          · refine ⟨r, e2, e1, he2, ?_, hdst2, he1, hsrc1, ?_, ?_⟩
            · simp [mkSeg, hsrc2]
            · simp [mkSeg, hdst1]
            · simp [mkSeg]
          · refine ih (b :: rest3) ?_ hcon3 s htail
            simp at hlen ⊢
            omega

/-- C3 counterexample: on `gC3` the only real path runs `2 → 1 → 0` (entity2
to entity1).  The inbound flat result is `[[2, 0]]` — entity2 first, entity1
last — not entity1-first as claimed; the inbound segment result binds
`from = 2`, the entity *farther* from entity1, not closer. -/
theorem claim_C3_counterexample :
    gC3.nodes.filter (fun n =>
      evalEMatch gC3 (.byId "id".toList) [("id".toList, "a".toList)] n) = [0] ∧
    gC3.nodes.filter (fun n =>
      evalEMatch gC3 (.byId "id".toList) [("id".toList, "b".toList)] n) = [2] ∧
    findDirectedPaths gC3 (some "a".toList) none none none
      (some "b".toList) none none none .inbound 1 = .ok [[2, 0]] ∧
    findDirectedPathsDetails gC3 (some "a".toList) none none none
      (some "b".toList) none none none .inbound 1 =
      .ok [[⟨2, ⟨none, none, none, none, 0⟩, 0⟩]] := by
  exact ⟨rfl, rfl, rfl, rfl⟩

/-- C3 amended: for `inbound`, every returned entity sequence *ends* with
entity1 (the sequence follows the stored arrow direction, from entity2's side
toward entity1), and every returned segment is arrow-truthful: its `from`
entity is the source of a real store relationship into the RelationshipDetail
and its `to` entity the destination out of it, so `from` is the entity
*farther* from entity1. -/
theorem claim_C3_amended (g : Graph) (i1 t1 s1 l1 i2 t2 s2 l2 : Option Str)
    (maxT : Nat) (out : List (List Nat)) (outD : List (List Segment))
    (hflat : findDirectedPaths g i1 t1 s1 l1 i2 t2 s2 l2 .inbound maxT = .ok out)
    (hdet : findDirectedPathsDetails g i1 t1 s1 l1 i2 t2 s2 l2 .inbound maxT =
      .ok outD) :
    (∀ p ∈ out, ∃ a m1 p1, buildEntityMatch i1 t1 s1 l1 = .ok (m1, p1) ∧
      a ∈ g.nodes ∧ evalEMatch g m1 p1 a = true ∧ p.getLast? = some a) ∧
    (∀ segs ∈ outD, ∀ s ∈ segs, ∃ rdn ea eb,
      ea ∈ g.edges ∧ ea.src = s.fromN ∧ ea.dst = rdn ∧
      eb ∈ g.edges ∧ eb.src = rdn ∧ eb.dst = s.toN ∧
      relProjOf g rdn = s.rdProj) := by
  constructor
  · intro p hp
    unfold findDirectedPaths at hflat
    split at hflat
    next => cases hflat
    next rows hraw =>
      simp only [Except.ok.injEq] at hflat
      subst hflat
      obtain ⟨r, hr, rfl⟩ := List.mem_map.mp hp
      obtain ⟨_, _, _, halt, ⟨m1, p1, hb1, hmem, hev⟩, _⟩ := rawT_spec hraw r hr
      refine ⟨r.1, m1, p1, hb1, hmem, hev, ?_⟩
      have hhead : hasLabel g r.1 .entity = true := by
        have : nodeSeq r.1 r.2 = r.1 :: r.2.map (·.2) := rfl
        rw [this] at halt
        simp only [alternB, Bool.and_eq_true, if_true] at halt
        exact halt.1
      have hfil : (nodeSeq r.1 r.2).filter (fun n => hasLabel g n .entity) =
          r.1 :: (r.2.map (·.2)).filter (fun n => hasLabel g n .entity) :=
        List.filter_cons_of_pos hhead
      simp only [hfil]
      rw [List.getLast?_reverse]
      rfl
  · intro segs hsegs s hs
    unfold findDirectedPathsDetails at hdet
    split at hdet
    next => cases hdet
    next rows hraw =>
      simp only [Except.ok.injEq] at hdet
      subst hdet
      obtain ⟨r, hr, rfl⟩ := List.mem_map.mp hsegs
      obtain ⟨hch, _, _, _, _, _⟩ := rawT_spec hraw r hr
      have hcon : ConsecRevEdges g (nodeSeq r.1 r.2) :=
        chain_inb_consec r.2 r.1 [] hch
      have hs' : s ∈ segsOf g true (nodeSeq r.1 r.2) := by
        simpa using List.mem_reverse.mp (by simpa using hs)
      exact segsOf_spec g (nodeSeq r.1 r.2).length (nodeSeq r.1 r.2)
        le_rfl hcon s hs'

/-- C3 witness: the amended orientation facts instantiated on `gC3`. -/
theorem claim_C3_witness :
    (∀ p ∈ [[2, 0]], ∃ a m1 p1,
      buildEntityMatch (some "a".toList) none none none = .ok (m1, p1) ∧
      a ∈ gC3.nodes ∧ evalEMatch gC3 m1 p1 a = true ∧
      List.getLast? p = some a) ∧
    (∀ segs ∈ [[(⟨2, ⟨none, none, none, none, 0⟩, 0⟩ : Segment)]],
      ∀ s ∈ segs, ∃ rdn ea eb,
      ea ∈ gC3.edges ∧ ea.src = s.fromN ∧ ea.dst = rdn ∧
      eb ∈ gC3.edges ∧ eb.src = rdn ∧ eb.dst = s.toN ∧
      relProjOf gC3 rdn = s.rdProj) :=
  claim_C3_amended gC3 (some "a".toList) none none none
    (some "b".toList) none none none 1
    [[2, 0]] [[⟨2, ⟨none, none, none, none, 0⟩, 0⟩]] rfl rfl

theorem mem_connectedRowsFor {g : Graph} {d : TravDir} {minT maxT s : Nat}
    {r : Nat × Nat} :
    r ∈ connectedRowsFor g d minT maxT s ↔
      ∃ t, t ∈ trailsFrom g d (2 * maxT) s [] ∧
        nodupB (nodeSeq s t) = true ∧
        alternB g true (nodeSeq s t) = true ∧
        hasLabel g ((t.map (·.2)).getLastD s) .entity = true ∧
        minT ≤ tierOf g (nodeSeq s t) ∧ tierOf g (nodeSeq s t) ≤ maxT ∧
        r = ((t.map (·.2)).getLastD s, tierOf g (nodeSeq s t)) := by
  simp only [connectedRowsFor, List.mem_filterMap]
  constructor
  · rintro ⟨t, ht, hsome⟩
    split at hsome
    next hcond =>
      split at hsome
      next hrange =>
        cases hsome
        obtain ⟨hc12, hc3⟩ := Bool.and_eq_true_iff.mp hcond
        obtain ⟨hc1, hc2⟩ := Bool.and_eq_true_iff.mp hc12
        exact ⟨t, ht, hc1, hc2, hc3, hrange.1, hrange.2, rfl⟩
      next => cases hsome
    next => cases hsome
  · rintro ⟨t, ht, h1, h2, h3, h4, h5, rfl⟩
    refine ⟨t, ht, ?_⟩
    rw [if_pos ?_, if_pos ⟨h4, h5⟩]
    exact Bool.and_eq_true_iff.mpr ⟨Bool.and_eq_true_iff.mpr ⟨h1, h2⟩, h3⟩

/-- C1 amended: `find_connected_entities` returns distinct `(entity, tier)`
*rows* — an entity reachable at several tiers appears once per tier — keeping
exactly the rows for which some simple alternating path from a resolved start
node reaches the entity with that per-path tier inside `[min_tier, max_tier]`
(not the entity's minimum tier over all paths), sorted ascending by tier and
capped at `limit` (completeness holds whenever the row count fits the
limit). -/
theorem claim_C1_amended (g : Graph) (i t s l : Option Str) (minT maxT : Nat)
    (dir : Option Bool) (limit : Nat) (m : EMatch) (p : Dict)
    (out : List (Nat × Nat))
    (hb : buildEntityMatch i t s l = .ok (m, p))
    (h : findConnectedEntities g i t s l minT maxT dir limit = .ok out) :
    out.length ≤ limit ∧
    List.Sorted (fun a b : Nat × Nat => a.2 ≤ b.2) out ∧
    out.Nodup ∧
    (∀ r ∈ out, minT ≤ r.2 ∧ r.2 ≤ maxT ∧
      ∃ sN tr, sN ∈ g.nodes ∧ evalEMatch g m p sN = true ∧
        chainOkB g (travOfOpt dir) sN [] tr = true ∧
        1 ≤ tr.length ∧ tr.length ≤ 2 * maxT ∧
        nodupB (nodeSeq sN tr) = true ∧
        alternB g true (nodeSeq sN tr) = true ∧
        hasLabel g r.1 .entity = true ∧
        (tr.map (·.2)).getLastD sN = r.1 ∧
        tierOf g (nodeSeq sN tr) = r.2) ∧
    ((dedupF ((dedupF (g.nodes.filter (fun n => evalEMatch g m p n))).flatMap
        (connectedRowsFor g (travOfOpt dir) minT maxT))).length ≤ limit →
      ∀ sN tr, sN ∈ g.nodes → evalEMatch g m p sN = true →
        chainOkB g (travOfOpt dir) sN [] tr = true →
        1 ≤ tr.length → tr.length ≤ 2 * maxT →
        nodupB (nodeSeq sN tr) = true →
        alternB g true (nodeSeq sN tr) = true →
        hasLabel g ((tr.map (·.2)).getLastD sN) .entity = true →
        minT ≤ tierOf g (nodeSeq sN tr) → tierOf g (nodeSeq sN tr) ≤ maxT →
        ((tr.map (·.2)).getLastD sN, tierOf g (nodeSeq sN tr)) ∈ out) := by
  unfold findConnectedEntities at h
  rw [hb] at h
  by_cases hmt : maxT < minT
  · rw [if_pos hmt] at h
    cases h
  rw [if_neg hmt] at h
  have h' : ((sortByKey (fun r => r.2)
      (dedupF ((dedupF (g.nodes.filter (fun n => evalEMatch g m p n))).flatMap
        (connectedRowsFor g (travOfOpt dir) minT maxT)))).take limit) = out := by
    simpa using h
  subst h'
  set rows := (dedupF (g.nodes.filter (fun n => evalEMatch g m p n))).flatMap
    (connectedRowsFor g (travOfOpt dir) minT maxT) with hrows
  refine ⟨List.length_take_le _ _, ?_, ?_, ?_, ?_⟩
  · exact List.Pairwise.sublist (List.take_sublist _ _) (sortByKey_sorted _ _)
  · refine List.Nodup.sublist (List.take_sublist _ _) ?_
    exact ((sortByKey_perm _ _).nodup_iff).mpr (nodup_dedupF _)
  · intro r hr
    have hr1 : r ∈ sortByKey (fun r => r.2) (dedupF rows) :=
      (List.take_sublist _ _).subset hr
    have hr2 : r ∈ dedupF rows := ((sortByKey_perm _ _).mem_iff).mp hr1
    have hr3 : r ∈ rows := mem_dedupF.mp hr2
    rw [hrows] at hr3
    obtain ⟨sN, hsN, hrow⟩ := List.mem_flatMap.mp hr3
    have hsN' := List.mem_filter.mp (mem_dedupF.mp hsN)
    obtain ⟨tr, htr, h1, h2, h3, h4, h5, rfl⟩ := mem_connectedRowsFor.mp hrow
    obtain ⟨hch, hl1, hl2⟩ := trailsFrom_sound _ _ _ _ htr
    exact ⟨h4, h5, sN, tr, hsN'.1, hsN'.2, hch, hl1, hl2, h1, h2, h3, rfl, rfl⟩
  · intro hlen sN tr hsN heval hch hl1 hl2 h1 h2 h3 h4 h5
    have hrow : ((tr.map (·.2)).getLastD sN, tierOf g (nodeSeq sN tr)) ∈
        connectedRowsFor g (travOfOpt dir) minT maxT sN :=
      mem_connectedRowsFor.mpr
        ⟨tr, trailsFrom_complete _ _ _ _ hch hl1 hl2, h1, h2, h3, h4, h5, rfl⟩
    have hmem : ((tr.map (·.2)).getLastD sN, tierOf g (nodeSeq sN tr)) ∈ rows := by
      rw [hrows]
      exact List.mem_flatMap.mpr
        ⟨sN, mem_dedupF.mpr (List.mem_filter.mpr ⟨hsN, heval⟩), hrow⟩
    have hmem2 : ((tr.map (·.2)).getLastD sN, tierOf g (nodeSeq sN tr)) ∈
        sortByKey (fun r => r.2) (dedupF rows) :=
      ((sortByKey_perm _ _).mem_iff).mpr (mem_dedupF.mpr hmem)
    have hall : (sortByKey (fun r => r.2) (dedupF rows)).take limit =
        sortByKey (fun r => r.2) (dedupF rows) := by
      refine List.take_of_length_le ?_
      calc (sortByKey (fun r => r.2) (dedupF rows)).length
          = (dedupF rows).length := (sortByKey_perm _ _).length_eq
        _ ≤ limit := hlen
    rw [hall]
    exact hmem2

/-- C1 counterexample.  On `gC1`, entity `2` is reachable at tier 1 and at
tier 2.  With `min_tier=1, max_tier=2` the call returns entity `2` twice
(once per tier), refuting "each reached entity at most once"; with
`min_tier=2, max_tier=2` it still returns entity `2` although its *minimum*
tier is 1, refuting the minimum-tier filter. -/
theorem claim_C1_counterexample :
    findConnectedEntities gC1 (some "s".toList) none none none 1 2
      (some true) 250 = .ok [(2, 1), (4, 1), (2, 2)] ∧
    findConnectedEntities gC1 (some "s".toList) none none none 2 2
      (some true) 250 = .ok [(2, 2)] := by
  exact ⟨rfl, rfl⟩

/-- C1 witness: the amended row semantics instantiated on `gC1`. -/
theorem claim_C1_witness :
    ([(2, 1), (4, 1), (2, 2)] : List (Nat × Nat)).length ≤ 250 ∧
    List.Sorted (fun a b : Nat × Nat => a.2 ≤ b.2) [(2, 1), (4, 1), (2, 2)] ∧
    ([(2, 1), (4, 1), (2, 2)] : List (Nat × Nat)).Nodup ∧
    (∀ r ∈ ([(2, 1), (4, 1), (2, 2)] : List (Nat × Nat)),
      1 ≤ r.2 ∧ r.2 ≤ 2 ∧
      ∃ sN tr, sN ∈ gC1.nodes ∧
        evalEMatch gC1 (.byId "id".toList) [("id".toList, "s".toList)] sN = true ∧
        chainOkB gC1 (travOfOpt (some true)) sN [] tr = true ∧
        1 ≤ tr.length ∧ tr.length ≤ 2 * 2 ∧
        nodupB (nodeSeq sN tr) = true ∧
        alternB gC1 true (nodeSeq sN tr) = true ∧
        hasLabel gC1 r.1 .entity = true ∧
        (tr.map (·.2)).getLastD sN = r.1 ∧
        tierOf gC1 (nodeSeq sN tr) = r.2) ∧
    ((dedupF ((dedupF (gC1.nodes.filter (fun n =>
        evalEMatch gC1 (.byId "id".toList) [("id".toList, "s".toList)] n))).flatMap
        (connectedRowsFor gC1 (travOfOpt (some true)) 1 2))).length ≤ 250 →
      ∀ sN tr, sN ∈ gC1.nodes →
        evalEMatch gC1 (.byId "id".toList) [("id".toList, "s".toList)] sN = true →
        chainOkB gC1 (travOfOpt (some true)) sN [] tr = true →
        1 ≤ tr.length → tr.length ≤ 2 * 2 →
        nodupB (nodeSeq sN tr) = true →
        alternB gC1 true (nodeSeq sN tr) = true →
        hasLabel gC1 ((tr.map (·.2)).getLastD sN) .entity = true →
        1 ≤ tierOf gC1 (nodeSeq sN tr) → tierOf gC1 (nodeSeq sN tr) ≤ 2 →
        ((tr.map (·.2)).getLastD sN, tierOf gC1 (nodeSeq sN tr)) ∈
          ([(2, 1), (4, 1), (2, 2)] : List (Nat × Nat))) :=
  claim_C1_amended gC1 (some "s".toList) none none none 1 2 (some true) 250
    (.byId "id".toList) [("id".toList, "s".toList)]
    [(2, 1), (4, 1), (2, 2)] rfl rfl

theorem mem_affiliatesOf {g : Graph} {s a : Nat} :
    a ∈ affiliatesOf g s ↔ AffiliateSpec g s a := by
  rw [affiliatesOf, mem_dedupF]
  simp only [List.mem_flatMap]
  constructor
  · rintro ⟨e1, he1, hrest⟩
    cases hrd : eStep .und s e1 with
    | none => rw [hrd] at hrest; simp at hrest
    | some rd =>
      rw [hrd] at hrest
      obtain ⟨e2, he2, hf⟩ := List.mem_filterMap.mp hrest
      split at hf
      next => cases hf
      next hne =>
        cases hstep : eStep .und rd e2 with
        | none => simp only [hstep] at hf; cases hf
        | some aff =>
          simp only [hstep] at hf
          rw [Option.ite_none_right_eq_some] at hf
          obtain ⟨hcond, heq⟩ := hf
          injection heq with heq
          subst heq
          obtain ⟨h1234, h5⟩ := Bool.and_eq_true_iff.mp hcond
          obtain ⟨h123, h4⟩ := Bool.and_eq_true_iff.mp h1234
          obtain ⟨h12, h3⟩ := Bool.and_eq_true_iff.mp h123
          obtain ⟨h1, h2⟩ := Bool.and_eq_true_iff.mp h12
          refine ⟨e1, e2, rd, he1, he2, fun hq => hne hq.symm, hrd, hstep,
            h1, h2, ?_, eq_of_beq h4, eq_of_beq h5⟩
          cases hrt : g.relTypeP rd with
          | none => rw [hrt] at h3; cases h3
          | some rt =>
            rw [hrt] at h3
            exact ⟨rt, rfl, List.elem_iff.mp h3⟩
  · rintro ⟨e1, e2, rd, he1, he2, hne, hrd, hstep, h1, h2, ⟨rt, hrt, hmem⟩, h4, h5⟩
    refine ⟨e1, he1, ?_⟩
    simp only [hrd]
    refine List.mem_filterMap.mpr ⟨e2, he2, ?_⟩
    rw [if_neg (fun hq => hne hq.symm)]
    simp only [hstep]
    rw [Option.ite_none_right_eq_some]
    refine ⟨?_, rfl⟩
    refine Bool.and_eq_true_iff.mpr ⟨Bool.and_eq_true_iff.mpr
      ⟨Bool.and_eq_true_iff.mpr ⟨Bool.and_eq_true_iff.mpr ⟨h1, h2⟩, ?_⟩,
        beq_iff_eq.mpr h4⟩, beq_iff_eq.mpr h5⟩
    rw [hrt]
    exact List.elem_iff.mpr hmem

theorem mem_awardRowsFor {g : Graph} {ent : Nat} {row : AwardRow} :
    row ∈ awardRowsFor g ent ↔ AwardSpec g ent row := by
  simp only [awardRowsFor, List.mem_flatMap]
  constructor
  · rintro ⟨e2, he2, hrest⟩
    split at hrest
    next hdst =>
      split at hrest
      next hcond =>
        obtain ⟨e1, he1, hf⟩ := List.mem_filterMap.mp hrest
        split at hf
        next hc2 =>
          cases hf
          obtain ⟨h12, h3⟩ := Bool.and_eq_true_iff.mp hc2
          obtain ⟨h1, h2⟩ := Bool.and_eq_true_iff.mp h12
          obtain ⟨hlab, hrt⟩ := Bool.and_eq_true_iff.mp hcond
          exact ⟨e1, e2, he1, he2, of_decide_eq_true h3, hdst, rfl,
            of_decide_eq_true h1, h2, hlab, eq_of_beq hrt, rfl, rfl⟩
        next => cases hf
      next => simp at hrest
    next => simp at hrest
  · rintro ⟨e1, e2, he1, he2, hne, hdst, hsrc, hd1, hl1, hlab, hrt, haw, haf⟩
    refine ⟨e2, he2, ?_⟩
    rw [if_pos hdst, if_pos ?_]
    · refine List.mem_filterMap.mpr ⟨e1, he1, ?_⟩
      rw [if_pos ?_]
      · cases row with
        | mk rdN awardedFrom affiliateE =>
          simp only at hsrc haw haf
          rw [← hsrc, haw, haf]
      · refine Bool.and_eq_true_iff.mpr ⟨Bool.and_eq_true_iff.mpr
          ⟨decide_eq_true ?_, hl1⟩, decide_eq_true hne⟩
        rw [hd1, hsrc]
    · exact Bool.and_eq_true_iff.mpr ⟨by rw [hsrc]; exact hlab,
        by rw [hsrc]; exact beq_iff_eq.mpr hrt⟩

/-- C8: the affiliate closure computed by `find_government_awards` contains
exactly the resolved start entity plus its one-hop allow-listed
company-to-company affiliates; every returned award row is an `awarded_to`
RelationshipDetail whose recipient lies in that depth-1 closure of some
matched start (so an award reachable only through an affiliate-of-an-affiliate
never appears), and conversely every such award row is returned when the row
count fits the limit. -/
theorem claim_C8 (g : Graph) (i t s l : Option Str) (limit : Nat)
    (m : EMatch) (p : Dict) (out : List AwardRow)
    (hb : buildEntityMatch i t s l = .ok (m, p))
    (h : findGovernmentAwards g i t s l limit = .ok out) :
    (∀ sN a, a ∈ closureOf g sN ↔ (a = sN ∨ AffiliateSpec g sN a)) ∧
    (∀ row ∈ out, ∃ sN, sN ∈ g.nodes ∧ evalEMatch g m p sN = true ∧
      ∃ ent, ent ∈ closureOf g sN ∧ AwardSpec g ent row) ∧
    ((dedupF ((g.nodes.filter (fun n => evalEMatch g m p n)).flatMap
        (fun sN => (closureOf g sN).flatMap (awardRowsFor g)))).length ≤ limit →
      ∀ row sN ent, sN ∈ g.nodes → evalEMatch g m p sN = true →
        ent ∈ closureOf g sN → AwardSpec g ent row → row ∈ out) := by
  unfold findGovernmentAwards at h
  rw [hb] at h
  have h' : ((sortByKeyDown (fun r => g.createdAtP r.rdN)
      (dedupF ((g.nodes.filter (fun n => evalEMatch g m p n)).flatMap
        (fun sN => (closureOf g sN).flatMap (awardRowsFor g))))).take limit) =
      out := by
    simpa using h
  subst h'
  set rows := (g.nodes.filter (fun n => evalEMatch g m p n)).flatMap
    (fun sN => (closureOf g sN).flatMap (awardRowsFor g)) with hrows
  refine ⟨?_, ?_, ?_⟩
  · intro sN a
    rw [closureOf, List.mem_cons, mem_affiliatesOf]
  · intro row hr
    have hr1 : row ∈ sortByKeyDown (fun r => g.createdAtP r.rdN) (dedupF rows) :=
      (List.take_sublist _ _).subset hr
    have hr2 : row ∈ rows :=
      mem_dedupF.mp (((sortByKeyDown_perm _ _).mem_iff).mp hr1)
    rw [hrows] at hr2
    obtain ⟨sN, hsN, hrest⟩ := List.mem_flatMap.mp hr2
    obtain ⟨ent, hent, hrow⟩ := List.mem_flatMap.mp hrest
    have hsN' := List.mem_filter.mp hsN
    exact ⟨sN, hsN'.1, hsN'.2, ent, hent, mem_awardRowsFor.mp hrow⟩
  · intro hlen row sN ent hsN heval hent hspec
    have hmem : row ∈ rows := by
      rw [hrows]
      exact List.mem_flatMap.mpr ⟨sN, List.mem_filter.mpr ⟨hsN, heval⟩,
        List.mem_flatMap.mpr ⟨ent, hent, mem_awardRowsFor.mpr hspec⟩⟩
    have hmem2 : row ∈ sortByKeyDown (fun r => g.createdAtP r.rdN) (dedupF rows) :=
      ((sortByKeyDown_perm _ _).mem_iff).mpr (mem_dedupF.mpr hmem)
    have hall : (sortByKeyDown (fun r => g.createdAtP r.rdN)
        (dedupF rows)).take limit =
        sortByKeyDown (fun r => g.createdAtP r.rdN) (dedupF rows) := by
      refine List.take_of_length_le ?_
      calc (sortByKeyDown (fun r => g.createdAtP r.rdN) (dedupF rows)).length
          = (dedupF rows).length := (sortByKeyDown_perm _ _).length_eq
        _ ≤ limit := hlen
    rw [hall]
    exact hmem2

/-- C8 witness on the `gC8` scenario: the award to the tier-1 affiliate `NNE
Corp` is returned (and, by direct evaluation, the award to the second-degree
affiliate `SMR Corp` is not in the result). -/
theorem claim_C8_witness :
    ((∀ sN a, a ∈ closureOf gC8 sN ↔ (a = sN ∨ AffiliateSpec gC8 sN a)) ∧
      (∀ row ∈ [(⟨6, "DOE".toList, "NNE Corp".toList⟩ : AwardRow)],
        ∃ sN, sN ∈ gC8.nodes ∧
          evalEMatch gC8 (.byId "id".toList) [("id".toList, "oklo".toList)] sN =
            true ∧
          ∃ ent, ent ∈ closureOf gC8 sN ∧ AwardSpec gC8 ent row) ∧
      ((dedupF ((gC8.nodes.filter (fun n => evalEMatch gC8 (.byId "id".toList)
          [("id".toList, "oklo".toList)] n)).flatMap
          (fun sN => (closureOf gC8 sN).flatMap (awardRowsFor gC8)))).length ≤
            250 →
        ∀ row sN ent, sN ∈ gC8.nodes →
          evalEMatch gC8 (.byId "id".toList) [("id".toList, "oklo".toList)] sN =
            true →
          ent ∈ closureOf gC8 sN → AwardSpec gC8 ent row →
            row ∈ [(⟨6, "DOE".toList, "NNE Corp".toList⟩ : AwardRow)])) ∧
    (⟨7, "DOE".toList, "SMR Corp".toList⟩ : AwardRow) ∉
      [(⟨6, "DOE".toList, "NNE Corp".toList⟩ : AwardRow)] :=
  ⟨claim_C8 gC8 (some "oklo".toList) none none none 250
    (.byId "id".toList) [("id".toList, "oklo".toList)]
    [⟨6, "DOE".toList, "NNE Corp".toList⟩] rfl rfl, by decide⟩
